import Mathlib

/-!
Verification of the scico research-assistant core: a shallow embedding of the
retriever tools, the research-loop graph nodes, the Markdown chunker, the
Zotero client metadata parsing, and the PDF indexer / vector-index layer,
together with proofs and refutations of the specified properties.

Python dictionaries are modelled as insertion-ordered association lists
(`Metadata`), Python values occurring in those dictionaries as `MVal`
(strings, integers, booleans, floats-as-rationals).  External collaborators
(the langchain splitters, the Chroma similarity search, the chat model, the
PDF converter) are passed in as explicit function arguments or result lists,
exactly at the interface the source code consumes them.
-/

set_option maxRecDepth 8000

namespace Scico

/-- Values stored in Python metadata dictionaries: strings, ints, bools and
floats (modelled as rationals). -/
inductive MVal where
  | str (s : String)
  | int (n : Int)
  | bool (b : Bool)
  | rat (q : ℚ)
deriving DecidableEq, Repr

/-- A Python dict, modelled as an insertion-ordered association list.  Lookup
returns the first (unique) binding; insertion overwrites in place. -/
abbrev Metadata := List (String × MVal)

/-- Lookup, as Python `d.get(k)` / `d[k]` (presence apart). -/
def dget (m : Metadata) (k : String) : Option MVal :=
  (m.find? (fun p => p.1 == k)).map (fun p => p.2)

/-- Python dict assignment `d[k] = v`: overwrite in place if the key exists,
else append the new binding. -/
def dinsert (m : Metadata) (k : String) (v : MVal) : Metadata :=
  if m.any (fun p => p.1 == k) then
    m.map (fun p => if p.1 == k then (k, v) else p)
  else
    m ++ [(k, v)]

/-- Python dict merge `\x7b**a, **b\x7d`: bindings of `b` override those of `a`. -/
def dmerge (a b : Metadata) : Metadata :=
  b.foldl (fun acc p => dinsert acc p.1 p.2) a

/-- Python truthiness of a metadata value. -/
def mvalTruthy : MVal → Bool
  | .str s => s ≠ ""
  | .int n => n ≠ 0
  | .bool b => b
  | .rat q => q ≠ 0

/-- Python `a or b` on two `dict.get` results (`None` is falsy). -/
def pyOrM (a b : Option MVal) : Option MVal :=
  match a with
  | some v => if mvalTruthy v then some v else b
  | none => b

/-- Rendering of a metadata value inside an f-string. -/
def mvalFStr : MVal → String
  | .str s => s
  | .int n => toString n
  | .bool b => if b then "True" else "False"
  | .rat q => toString q

/-- Rendering of a `dict.get(k)` result inside an f-string (`None` prints as
`None`). -/
def fstrOpt : Option MVal → String
  | none => "None"
  | some v => mvalFStr v

/-- Rendering of a `dict.get(k, default)` result inside an f-string. -/
def fstrD (o : Option MVal) (dflt : String) : String :=
  match o with
  | none => dflt
  | some v => mvalFStr v

/-- Python prefix test `s.startswith(pre)`, computed on the character
lists. -/
def pyStartsWith (s pre : String) : Bool :=
  pre.data.isPrefixOf s.data

/-- Occurrence test of `sub` inside a character list (an empty pattern
matches everywhere, as in Python). -/
def subInChars (sub : List Char) : List Char → Bool
  | [] => sub.isEmpty
  | c :: rest => sub.isPrefixOf (c :: rest) || subInChars sub rest

/-- Python substring test `sub in s`, computed on the character lists. -/
def pyStrContains (sub s : String) : Bool :=
  subInChars sub.data s.data

/-- Python `s.lower()`, computed characterwise. -/
def pyToLower (s : String) : String :=
  ⟨s.data.map Char.toLower⟩

/-- A langchain Document as the retriever code consumes it: the text plus its
metadata dictionary (the `id` attribute is irrelevant to retrieval). -/
structure Doc where
  page_content : String
  metadata : Metadata
deriving DecidableEq, Repr

/-- Key `d.metadata.get("distance", 999.0)` used to sort combined results in
`multi_query_search`; numeric values compare as in Python.  (A string-valued
distance would raise in Python; the claims only involve numeric distances.) -/
def distanceKey (d : Doc) : ℚ :=
  match dget d.metadata "distance" with
  | some (.rat q) => q
  | some (.int n) => (n : ℚ)
  | some (.bool b) => if b then 1 else 0
  | some (.str _) => 999
  | none => 999

/-- Deduplication key of `multi_query_search`:
`f"\x7bdoc.page_content[:100]\x7d_\x7bdoc.metadata.get('item_id', '')\x7d"`. -/
def mqsDocId (d : Doc) : String :=
  (d.page_content.take 100) ++ "_" ++ fstrD (dget d.metadata "item_id") ""

/-- One deduplication step of the inner loop of `multi_query_search`: the
accumulator is `(all_results, seen_ids)`; the Python set membership test
`doc_id in seen_ids` is list membership here. -/
def mqsStep (acc : List Doc × List String) (doc : Doc) : List Doc × List String :=
  let doc_id := mqsDocId doc
  if doc_id ∈ acc.2 then acc
  else (acc.1 ++ [doc], acc.2 ++ [doc_id])

/-- Embedding of `multi_query_search` from `src/Tools/zotero_retriever_tools.py`.
`search_results` holds, for each query in `queries` in order, the list
returned by `storage.search(query=query, metadata=metadata_filter,
n_results=k)`.  The function collects results over all queries, skipping any
document whose dedup key was already seen, sorts all collected documents
ascending by the distance key (Python `list.sort` is stable, as is
`List.mergeSort`), and returns the first `k`. -/
def multi_query_search (search_results : List (List Doc)) (k : Nat) : List Doc :=
  let collected := search_results.foldl (fun acc results => results.foldl mqsStep acc) ([], [])
  let sorted := collected.1.mergeSort (fun d₁ d₂ => decide (distanceKey d₁ ≤ distanceKey d₂))
  sorted.take k

/-- Invariant of the deduplication accumulator: the seen-id list is exactly
the image of the collected documents under the dedup key, without repeats. -/
def mqsInv (acc : List Doc × List String) : Prop :=
  acc.2 = acc.1.map mqsDocId ∧ acc.2.Nodup

lemma mqsStep_inv {acc : List Doc × List String} (doc : Doc) (h : mqsInv acc) :
    mqsInv (mqsStep acc doc) := by
  obtain ⟨h1, h2⟩ := h
  unfold mqsStep
  by_cases hc : mqsDocId doc ∈ acc.2
  · rw [if_pos hc]
    exact ⟨h1, h2⟩
  · rw [if_neg hc]
    refine ⟨by simp [h1], ?_⟩
    rw [List.nodup_append]
    exact ⟨h2, List.nodup_singleton _, fun x hx hy => hc ((List.mem_singleton.mp hy) ▸ hx)⟩

lemma mqs_foldl_inv (docs : List Doc) (acc : List Doc × List String) (h : mqsInv acc) :
    mqsInv (docs.foldl mqsStep acc) := by
  induction docs generalizing acc with
  | nil => exact h
  | cons d ds ih => exact ih _ (mqsStep_inv d h)

lemma mqs_foldl2_inv (rss : List (List Doc)) (acc : List Doc × List String) (h : mqsInv acc) :
    mqsInv (rss.foldl (fun acc results => results.foldl mqsStep acc) acc) := by
  induction rss generalizing acc with
  | nil => exact h
  | cons rs rss ih => exact ih _ (mqs_foldl_inv rs _ h)

/-- C1 (amended).  Every call to `multi_query_search(queries, k)` returns at
most `k` documents, sorted by non-decreasing distance; the results are
deduplicated by the key `(page_content[:100], item_id)` — not by
`(item_id, split_id)` as the claim states — so no two returned documents
share that dedup key. -/
theorem multi_query_search_spec (search_results : List (List Doc)) (k : Nat) :
    (multi_query_search search_results k).length ≤ k ∧
    ((multi_query_search search_results k).map mqsDocId).Nodup ∧
    (multi_query_search search_results k).Sorted
      (fun a b => distanceKey a ≤ distanceKey b) := by
  have hinv : mqsInv (search_results.foldl (fun acc results => results.foldl mqsStep acc)
      ([], [])) :=
    mqs_foldl2_inv search_results ([], []) ⟨rfl, List.nodup_nil⟩
  obtain ⟨h1, h2⟩ := hinv
  unfold multi_query_search
  refine ⟨List.length_take_le _ _, ?_, ?_⟩
  · have hn : ((search_results.foldl (fun acc results => results.foldl mqsStep acc)
        ([], [])).1.map mqsDocId).Nodup := h1 ▸ h2
    have hperm := List.mergeSort_perm
      (search_results.foldl (fun acc results => results.foldl mqsStep acc) ([], [])).1
      (fun d₁ d₂ => decide (distanceKey d₁ ≤ distanceKey d₂))
    have hsortnd := ((hperm.map mqsDocId).nodup_iff).mpr hn
    exact hsortnd.sublist ((List.take_sublist _ _).map _)
  · have hs := @List.sorted_mergeSort Doc
      (fun d₁ d₂ : Doc => decide (distanceKey d₁ ≤ distanceKey d₂))
      (fun a b c hab hbc => by
        simp only [decide_eq_true_eq] at *
        exact le_trans hab hbc)
      (fun a b => by
        simp only [Bool.or_eq_true, decide_eq_true_eq]
        exact le_total _ _)
      (search_results.foldl (fun acc results => results.foldl mqsStep acc) ([], [])).1
    have hs' : ((search_results.foldl (fun acc results => results.foldl mqsStep acc)
        ([], [])).1.mergeSort
          (fun d₁ d₂ => decide (distanceKey d₁ ≤ distanceKey d₂))).Sorted
        (fun a b => distanceKey a ≤ distanceKey b) :=
      hs.imp (fun h => by simpa using h)
    exact hs'.sublist (List.take_sublist _ _)

/-- First counterexample document for C1: item `a`, split 0, content `x`. -/
def cexDoc1 : Doc :=
  ⟨"x", [("item_id", .str "a"), ("split_id", .int 0), ("distance", .int 0)]⟩

/-- Second counterexample document for C1: item `a`, split 0, content `y`. -/
def cexDoc2 : Doc :=
  ⟨"y", [("item_id", .str "a"), ("split_id", .int 0), ("distance", .int 1)]⟩

/-- C1 counterexample.  Two documents returned by a single query that share
`(item_id, split_id)` but differ in content are both returned by
`multi_query_search`; the claimed deduplication by `(item_id, split_id)`
therefore does not hold (the code keys on content prefix and item only). -/
theorem multi_query_search_claim_counterexample :
    multi_query_search [[cexDoc1, cexDoc2]] 2 = [cexDoc1, cexDoc2] ∧
    cexDoc1 ≠ cexDoc2 ∧
    dget cexDoc1.metadata "item_id" = dget cexDoc2.metadata "item_id" ∧
    dget cexDoc1.metadata "split_id" = dget cexDoc2.metadata "split_id" := by
  refine ⟨?_, by decide, by decide, by decide⟩
  show ((([[cexDoc1, cexDoc2]].foldl (fun acc results => results.foldl mqsStep acc)
      ([], [])).1).mergeSort
        (fun d₁ d₂ => decide (distanceKey d₁ ≤ distanceKey d₂))).take 2 = [cexDoc1, cexDoc2]
  have hfold : ([[cexDoc1, cexDoc2]].foldl (fun acc results => results.foldl mqsStep acc)
      (([], []) : List Doc × List String)).1 = [cexDoc1, cexDoc2] := by rfl
  rw [hfold, List.mergeSort_of_sorted (by decide)]
  rfl

/-! Research-loop graph nodes, from `src/workflows/zotero_question_graph.py`. -/

/-- Lookup as Python `d[k]`: raises `KeyError` when the key is absent. -/
def dindex (m : Metadata) (k : String) : Except String MVal :=
  match dget m k with
  | some v => .ok v
  | none => .error ("KeyError: " ++ k)

/-- Embedding of the helper `_remove_references_from_documents`.  The source
reads `document.metadata` at key `levels` (raising `KeyError` when the key is
absent), lowers it (raising when the value is not a string) and skips the
document when the lowered string contains `reference`. -/
def remove_references_from_documents (documents : List Doc) :
    Except String (List Doc) :=
  documents.foldlM (fun acc document => do
    let v ← dindex document.metadata "levels"
    match v with
    | .str s =>
      if pyStrContains "reference" (pyToLower s) then pure acc
      else pure (acc ++ [document])
    | _ => Except.error "AttributeError: lower") []

/-- State fields of the graph state consumed by the `search` node. -/
structure SearchState where
  retrieved_documents : List (List Doc)
  max_docs_per_search : Nat
  exclude_references : Bool

/-- Dict-comprehension key for a newly retrieved document, with an underscore
between item id and split id (both rendered with `dict.get`, so a missing key
prints as `None`). -/
def searchNewDocKey (doc : Doc) : String :=
  fstrOpt (dget doc.metadata "item_id") ++ "_" ++ fstrOpt (dget doc.metadata "split_id")

/-- Id string computed for every already-retrieved document: item id and
split id concatenated WITHOUT a separator (indexing raises on missing keys),
unlike `searchNewDocKey`. -/
def searchCurrentDocId (doc : Doc) : Except String String := do
  let a ← dindex doc.metadata "item_id"
  let b ← dindex doc.metadata "split_id"
  pure (mvalFStr a ++ mvalFStr b)

/-- Python dict-comprehension insertion: a later duplicate key overrides in
place. -/
def assocInsertDoc (d : List (String × Doc)) (k : String) (v : Doc) :
    List (String × Doc) :=
  if d.any (fun p => p.1 == k) then d.map (fun p => if p.1 == k then (k, v) else p)
  else d ++ [(k, v)]

/-- The removal loop over `current_doc_ids`: `new_docs_dict.pop(doc_id)` for
every already-known id that occurs in the (pre-computed) key list
`new_doc_ids`; popping a key twice raises `KeyError`. -/
def popKnownIds (dict : List (String × Doc)) (current_doc_ids new_doc_ids : List String) :
    Except String (List (String × Doc)) :=
  current_doc_ids.foldlM (fun d doc_id =>
    if doc_id ∈ new_doc_ids then
      if d.any (fun p => p.1 == doc_id) then pure (d.eraseP (fun p => p.1 == doc_id))
      else Except.error ("KeyError: " ++ doc_id)
    else pure d) dict

/-- Embedding of the `search` node.  `storage_results` is the list returned
by the vector storage for the last search query with
`n_results = 2 * max_docs_per_search`.  `np.array(current_docs).flatten()` is
modelled as list concatenation (its value on rectangular inputs).  The
deduplicated dictionary `new_docs_dict` is computed exactly as in the source
and then DISCARDED, as in the source: the appended round is the (possibly
reference-filtered) `new_docs` list itself, truncated to
`max_docs_per_search`.  The function returns the updated
`retrieved_documents`. -/
def search (state : SearchState) (storage_results : List Doc) :
    Except String (List (List Doc)) := do
  let new_docs ← if state.exclude_references then
      remove_references_from_documents storage_results
    else pure storage_results
  let current_docs := state.retrieved_documents
  let flat_current_docs := current_docs.flatten
  let current_doc_ids ← flat_current_docs.mapM searchCurrentDocId
  let new_docs_dict := new_docs.foldl
    (fun d doc => assocInsertDoc d (searchNewDocKey doc) doc) []
  let new_doc_ids := new_docs_dict.map (fun p => p.1)
  let _ ← if current_doc_ids.isEmpty then pure new_docs_dict
    else popKnownIds new_docs_dict current_doc_ids new_doc_ids
  let new_docs := if new_docs.length > state.max_docs_per_search then
      new_docs.take state.max_docs_per_search
    else new_docs
  pure (current_docs ++ [new_docs])

/-- Prior-round and freshly-retrieved document for the C2 failing input:
item `a`, split 0. -/
def c2Doc : Doc := ⟨"some text", [("item_id", .str "a"), ("split_id", .int 0)]⟩

/-- C2 failing input, evaluated.  With one prior round containing the chunk
of item `a`, split 0, and the storage returning that same chunk again, the
`search` node appends a round that again contains it — the claimed removal of
already-seen `(item_id, split_id)` pairs does not happen.  In the source the
pruned `new_docs_dict` is never consulted afterwards, and its removal loop
compares id strings of two different formats anyway. -/
theorem search_node_no_dedup_bug :
    search ⟨[[c2Doc]], 10, false⟩ [c2Doc] = Except.ok [[c2Doc], [c2Doc]] := by
  rfl

/-- Structured output of the judging chat-model call. -/
structure Assessment where
  stop : Bool
  reasoning : String
deriving DecidableEq, Repr

/-- Successor nodes reachable from `judge_information`. -/
inductive JudgeTarget where
  | generate_search_query
  | final_answer
deriving DecidableEq, Repr

/-- State fields of the graph state consumed by `judge_information`. -/
structure JudgeState where
  assessment_strings : List String
  search_loop_count : Nat
  max_search_depth : Nat
deriving DecidableEq, Repr

/-- Embedding of the `judge_information` node.  The chat-model call (prompted
with the user query, the search queries, the latest knowledge string and the
last assessment) is passed in as `assessment`.  The node appends the
reasoning, increments the loop counter, and branches on
`assessment.stop or current_iteration >= max_search_depth`, where
`current_iteration` is the counter value BEFORE the increment. -/
def judge_information (state : JudgeState) (assessment : Assessment) :
    JudgeState × JudgeTarget :=
  let current_iteration := state.search_loop_count
  let state' := { state with
    assessment_strings := state.assessment_strings ++ [assessment.reasoning],
    search_loop_count := current_iteration + 1 }
  if assessment.stop || decide (current_iteration ≥ state.max_search_depth) then
    (state', JudgeTarget.final_answer)
  else
    (state', JudgeTarget.generate_search_query)

/-- Driver counting rounds of the loop `gen_query → search → synthesize →
judge`: none of the other nodes touches `search_loop_count` or
`max_search_depth`, so one round corresponds to one execution of
`judge_information`.  `oracle` supplies the chat-model assessment of each
round, `fuel` bounds the recursion; the result is the number of judge
executions until `final_answer` is reached. -/
def roundsRun (oracle : Nat → Assessment) : JudgeState → Nat → Nat
  | _, 0 => 0
  | st, fuel + 1 =>
    match judge_information st (oracle st.search_loop_count) with
    | (_, JudgeTarget.final_answer) => 1
    | (st', JudgeTarget.generate_search_query) => 1 + roundsRun oracle st' fuel

lemma roundsRun_le (oracle : Nat → Assessment) (fuel : Nat) :
    ∀ st : JudgeState,
      roundsRun oracle st fuel ≤ st.max_search_depth - st.search_loop_count + 1 := by
  induction fuel with
  | zero => intro st; simp [roundsRun]
  | succ fuel ih =>
    intro st
    unfold roundsRun judge_information
    by_cases hc : (oracle st.search_loop_count).stop
        || decide (st.search_loop_count ≥ st.max_search_depth)
    · simp only [hc, if_pos]
      omega
    · simp only [hc, Bool.false_eq_true, if_neg, ite_false]
      have hlt : st.search_loop_count < st.max_search_depth := by
        simp only [Bool.or_eq_true, decide_eq_true_eq, not_or] at hc
        exact lt_of_not_le hc.2
      have := ih { st with
        assessment_strings := st.assessment_strings ++ [(oracle st.search_loop_count).reasoning],
        search_loop_count := st.search_loop_count + 1 }
      simp only at this
      omega

/-- C3 (amended).  The `judge_information` node appends the reasoning to
`assessment_strings` and increments `search_loop_count`, and it transitions
to `final_answer` if and only if the model returned `stop = true` or the
PRE-increment `search_loop_count` is at least `max_search_depth`
(equivalently, the incremented count is at least `max_search_depth + 1`).
Consequently the loop never runs more than `max_search_depth + 1` rounds
(not `max_search_depth`). -/
theorem judge_information_spec (st : JudgeState) (a : Assessment)
    (oracle : Nat → Assessment) (fuel d : Nat) :
    (judge_information st a).1.assessment_strings
        = st.assessment_strings ++ [a.reasoning] ∧
    (judge_information st a).1.search_loop_count = st.search_loop_count + 1 ∧
    ((judge_information st a).2 = JudgeTarget.final_answer ↔
      (a.stop = true ∨ st.search_loop_count ≥ st.max_search_depth)) ∧
    roundsRun oracle
      ⟨["This is the first search. This will supply your initial knowledge."], 0, d⟩
      fuel ≤ d + 1 := by
  refine ⟨?_, ?_, ?_, ?_⟩
  · unfold judge_information
    by_cases hc : a.stop || decide (st.search_loop_count ≥ st.max_search_depth) <;>
      simp [hc]
  · unfold judge_information
    by_cases hc : a.stop || decide (st.search_loop_count ≥ st.max_search_depth) <;>
      simp [hc]
  · unfold judge_information
    by_cases hc : a.stop || decide (st.search_loop_count ≥ st.max_search_depth)
    · simp only [hc, if_pos]
      simpa using Bool.or_eq_true_iff.mp hc
    · simp only [hc, Bool.false_eq_true, if_neg, ite_false]
      constructor
      · intro h; cases h
      · intro h
        exfalso
        simp only [Bool.or_eq_true, decide_eq_true_eq, not_or] at hc
        rcases h with h | h
        · exact hc.1 h
        · exact hc.2 h
  · have := roundsRun_le oracle fuel
      ⟨["This is the first search. This will supply your initial knowledge."], 0, d⟩
    simpa using this

/-- C3 counterexample.  With `search_loop_count = 0`, `max_search_depth = 1`
and a non-stop assessment, the incremented count reaches `max_search_depth`,
so the claim prescribes a transition to finalize; the node instead branches
on the pre-increment value and loops back to `gen_query`.  With an oracle
that never stops, the loop runs 2 rounds although `max_search_depth = 1`. -/
theorem judge_information_claim_counterexample :
    (judge_information ⟨[], 0, 1⟩ ⟨false, "r"⟩).2 = JudgeTarget.generate_search_query ∧
    (judge_information ⟨[], 0, 1⟩ ⟨false, "r"⟩).1.search_loop_count
      ≥ (judge_information ⟨[], 0, 1⟩ ⟨false, "r"⟩).1.max_search_depth ∧
    ((judge_information ⟨[], 0, 1⟩ ⟨false, "r"⟩).1.assessment_strings = ["r"]) ∧
    roundsRun (fun _ => ⟨false, "r"⟩) ⟨[], 0, 1⟩ 5 = 2 := by
  refine ⟨by rfl, by decide, by rfl, by rfl⟩

/-! The Markdown chunker, from `src/document_processing/Chunker.py` with its
configuration from `src/configs/Chunker_config.py`. -/

/-- Chunker configuration (defaults as in the source dataclass); the
header-splitting table maps ATX levels 1..7 to keys `level1`..`level7`. -/
structure MarkdownToChunksConfig where
  add_uid : Bool := true
  annotate_tables : Bool := true
  numerate_splits : Bool := true
  add_length_to_splits : Bool := true
  chunk_size : Nat := 1000
  chunk_overlap : Nat := 200
  method : String := "markdown+recursive"
deriving Repr

/-- A langchain Document as produced by the splitters and mutated by the
annotators: the `id` attribute (set by the uid annotator), the text, and the
metadata dictionary (holding the `level1`..`level7` heading entries assigned
by the Markdown header splitter). -/
structure Split where
  id : String := ""
  page_content : String
  metadata : Metadata
deriving DecidableEq, Repr

/-- Error text of the guard shared by all annotators: a `None` or empty
(falsy) split list raises. -/
def noSplitsError : String := "No splits found. Please run chunk() first."

/-- Loop body of `_add_uid_to_splits`: each split gets the next fresh uuid4
hex, supplied here by the `uids` stream, in iteration order. -/
def addUidGo (uids : Nat → String) (i : Nat) : List Split → List Split
  | [] => []
  | s :: rest => { s with id := uids i } :: addUidGo uids (i + 1) rest

/-- Embedding of `_add_uid_to_splits`. -/
def add_uid_to_splits (uids : Nat → String) (splits : List Split) :
    Except String (List Split) :=
  if splits.isEmpty then Except.error noSplitsError
  else Except.ok (addUidGo uids 0 splits)

/-- Loop body of `_annotate_tables_splits`, carrying `last_chunk_table` and
`table_counter` exactly as in the source: content starting with a pipe
continues or opens a table run, anything else stamps `table = False`. -/
def annotateTablesGo (last_chunk_table : Bool) (table_counter : Nat) :
    List Split → List Split
  | [] => []
  | chnk :: rest =>
    if pyStartsWith chnk.page_content "|" then
      if last_chunk_table then
        { chnk with metadata := dinsert chnk.metadata "table" (.int table_counter) } ::
          annotateTablesGo true table_counter rest
      else
        { chnk with metadata := dinsert chnk.metadata "table" (.int (table_counter + 1)) } ::
          annotateTablesGo true (table_counter + 1) rest
    else
      { chnk with metadata := dinsert chnk.metadata "table" (.bool false) } ::
        annotateTablesGo false table_counter rest

/-- Embedding of `_annotate_tables_splits`. -/
def annotate_tables_splits (splits : List Split) : Except String (List Split) :=
  if splits.isEmpty then Except.error noSplitsError
  else Except.ok (annotateTablesGo false 0 splits)

/-- Loop body of `_numerate_splits`: `split_id` is the enumeration index. -/
def numerateGo (i : Nat) : List Split → List Split
  | [] => []
  | s :: rest =>
    { s with metadata := dinsert s.metadata "split_id" (.int i) } :: numerateGo (i + 1) rest

/-- Embedding of `_numerate_splits`. -/
def numerate_splits (splits : List Split) : Except String (List Split) :=
  if splits.isEmpty then Except.error noSplitsError
  else Except.ok (numerateGo 0 splits)

/-- Map of `_add_length_to_splits`: `length` is the character count of the
content (Python `len` and `String.length` both count code points). -/
def addLengthMap (splits : List Split) : List Split :=
  splits.map (fun s =>
    { s with metadata := dinsert s.metadata "length" (.int s.page_content.length) })

/-- Embedding of `_add_length_to_splits`. -/
def add_length_to_splits (splits : List Split) : Except String (List Split) :=
  if splits.isEmpty then Except.error noSplitsError
  else Except.ok (addLengthMap splits)

/-- Embedding of `_add_additional_metadata`: the caller metadata is merged
last, overriding conflicting keys. -/
def add_additional_metadata (metadata : Metadata) (splits : List Split) :
    Except String (List Split) :=
  if splits.isEmpty then Except.error noSplitsError
  else Except.ok (splits.map (fun s => { s with metadata := dmerge s.metadata metadata }))

/-- Embedding of `chunk`.  The external langchain splitters are outside the
repository: `recursive_splits` is the value of
`_markdown_recursive_splitter(md_string, config)` on the file contents (for
an empty file this list is empty — the header splitter emits one document per
line, and an empty file has none).  The `semantic` branch calls the zero-ary
`_markdown_semantic_splitter` with two arguments and so raises; an unknown
method raises.  The annotators run in source order under the configuration
flags, and the caller metadata is merged last, only when the dict is
non-empty (Python truthiness of `metadata`). -/
def chunk (cfg : MarkdownToChunksConfig) (uids : Nat → String)
    (recursive_splits : List Split) (metadata : Option Metadata) :
    Except String (List Split) := do
  let splits ← if cfg.method == "markdown+recursive" then pure recursive_splits
    else if cfg.method == "semantic" then
      Except.error "TypeError: _markdown_semantic_splitter takes 0 positional arguments"
    else
      Except.error "Invalid method. Please choose from markdown+recursive or markdown+semantic"
  let splits ← if cfg.add_uid then add_uid_to_splits uids splits else pure splits
  let splits ← if cfg.annotate_tables then annotate_tables_splits splits else pure splits
  let splits ← if cfg.numerate_splits then numerate_splits splits else pure splits
  let splits ← if cfg.add_length_to_splits then add_length_to_splits splits else pure splits
  let splits ← match metadata with
    | some m => if m.isEmpty then pure splits else add_additional_metadata m splits
    | none => pure splits
  pure splits

/-- C5: the code raises on an empty Markdown file.  An empty file gives the
annotator chain an empty split list, and the falsy-list guard of
`_add_uid_to_splits` (meant to catch a missing argument — its message says
`Please run chunk() first`) raises instead of returning zero chunks. -/
theorem chunk_empty_file_raises (uids : Nat → String) (metadata : Option Metadata) :
    chunk {} uids [] metadata = Except.error noSplitsError := by
  rfl

/-- Fixed uuid stream for concrete evaluations. -/
def uidsFix : Nat → String := fun _ => "0123abcdef"

/-- Raw split for C7: one line of text under an `Introduction` heading, with
the metadata the Markdown header splitter assigns (`level1`, never a key
named `levels`). -/
def c7RawSplit : Split :=
  { page_content := "Some text", metadata := [("level1", .str "Introduction")] }

/-- The chunk the Chunker produces from `c7RawSplit` merged with the item
metadata: heading text under `level1`, no `levels` key. -/
def c7Chunk : Split :=
  { id := "0123abcdef"
    page_content := "Some text"
    metadata := [("level1", .str "Introduction"), ("table", .bool false),
      ("split_id", .int 0), ("length", .int 9), ("item_id", .str "I1")] }

/-- C7: chunks produced by the Chunker carry heading metadata under
`level1`..`level7` (plus `table`, `split_id`, `length` and the merged item
metadata) but never a key named `levels`; the reference filter of the search
node indexes `metadata` at `levels` and hence raises `KeyError` on every
Chunker-produced chunk instead of testing the deepest heading. -/
theorem reference_filter_keyerror_bug :
    chunk {} uidsFix [c7RawSplit] (some [("item_id", .str "I1")]) = Except.ok [c7Chunk] ∧
    remove_references_from_documents [⟨c7Chunk.page_content, c7Chunk.metadata⟩] =
      Except.error "KeyError: levels" :=
  ⟨rfl, rfl⟩

/-! C8 machinery: the chunk tuple `(content, split_id, levels, table,
length)` of a produced chunk depends only on the splitter output and not on
the uuid stream or (reserved keys apart) the caller metadata. -/

/-- Content–metadata projection of a split: everything the C8 tuple depends
on (the uuid is deliberately excluded). -/
def score (s : Split) : String × Metadata := (s.page_content, s.metadata)

/-- Heading-level keys assigned by the Markdown header splitter. -/
def levelKeys : List String :=
  ["level1", "level2", "level3", "level4", "level5", "level6", "level7"]

/-- Predicate selecting heading-level metadata entries. -/
def isLevelEntry (p : String × MVal) : Bool := levelKeys.contains p.1

/-- Keys owned by the chunk annotators; caller metadata containing one of
these overrides the annotation, because the merge is caller-last. -/
def chunkReservedKeys : List String := ["split_id", "table", "length"] ++ levelKeys

/-- The tuple compared by C8, extracted from a content–metadata pair:
content, split id, heading levels, table annotation and length. -/
def tupleCore (c : String × Metadata) :
    String × Option MVal × Metadata × Option MVal × Option MVal :=
  (c.1, dget c.2 "split_id", c.2.filter isLevelEntry, dget c.2 "table", dget c.2 "length")

/-- The C8 tuple of a produced chunk. -/
def chunkTuple (s : Split) : String × Option MVal × Metadata × Option MVal × Option MVal :=
  tupleCore (score s)

/-- Table annotation acting on content–metadata pairs. -/
def tablesCoreGo (last_chunk_table : Bool) (table_counter : Nat) :
    List (String × Metadata) → List (String × Metadata)
  | [] => []
  | c :: rest =>
    if pyStartsWith c.1 "|" then
      if last_chunk_table then
        (c.1, dinsert c.2 "table" (.int table_counter)) ::
          tablesCoreGo true table_counter rest
      else
        (c.1, dinsert c.2 "table" (.int (table_counter + 1))) ::
          tablesCoreGo true (table_counter + 1) rest
    else
      (c.1, dinsert c.2 "table" (.bool false)) :: tablesCoreGo false table_counter rest

/-- Split numbering acting on content–metadata pairs. -/
def numerateCoreGo (i : Nat) : List (String × Metadata) → List (String × Metadata)
  | [] => []
  | c :: rest => (c.1, dinsert c.2 "split_id" (.int i)) :: numerateCoreGo (i + 1) rest

/-- Length annotation acting on a content–metadata pair. -/
def lengthCore (c : String × Metadata) : String × Metadata :=
  (c.1, dinsert c.2 "length" (.int c.1.length))

lemma map_score_addUidGo (uids : Nat → String) (i : Nat) (l : List Split) :
    (addUidGo uids i l).map score = l.map score := by
  induction l generalizing i with
  | nil => rfl
  | cons s rest ih => simp [addUidGo, score, ih]

lemma map_score_tablesGo (b : Bool) (n : Nat) (l : List Split) :
    (annotateTablesGo b n l).map score = tablesCoreGo b n (l.map score) := by
  induction l generalizing b n with
  | nil => rfl
  | cons s rest ih =>
    simp only [annotateTablesGo, List.map_cons, tablesCoreGo]
    by_cases hp : pyStartsWith s.page_content "|"
    · by_cases hb : b <;> simp [score, hp, hb, ih]
    · simp [score, hp, ih]

lemma map_score_numerateGo (i : Nat) (l : List Split) :
    (numerateGo i l).map score = numerateCoreGo i (l.map score) := by
  induction l generalizing i with
  | nil => rfl
  | cons s rest ih => simp [numerateGo, numerateCoreGo, score, ih]

lemma map_score_addLengthMap (l : List Split) :
    (addLengthMap l).map score = (l.map score).map lengthCore := by
  simp only [addLengthMap, List.map_map]
  rfl

lemma map_score_mergeMap (m : Metadata) (l : List Split) :
    ((l.map (fun s => { s with metadata := dmerge s.metadata m })).map score)
      = (l.map score).map (fun c => (c.1, dmerge c.2 m)) := by
  simp only [List.map_map]
  rfl

lemma dget_dinsert_ne (m : Metadata) (k k' : String) (v : MVal) (h : k' ≠ k) :
    dget (dinsert m k v) k' = dget m k' := by
  have hbeq : (k == k') = false := beq_eq_false_iff_ne.mpr (Ne.symm h)
  unfold dinsert
  by_cases hc : m.any (fun p => p.1 == k)
  · rw [if_pos hc]
    clear hc
    unfold dget
    induction m with
    | nil => rfl
    | cons p ps ih =>
      by_cases hp : p.1 == k
      · have hpk : p.1 = k := by simpa using hp
        simp only [List.map_cons, hp, ite_true]
        rw [List.find?_cons_of_neg _ (by simp [hbeq]),
          List.find?_cons_of_neg _ (by simp [hpk, hbeq])]
        exact ih
      · simp only [List.map_cons, hp, Bool.false_eq_true, ite_false]
        by_cases hk' : p.1 == k'
        · rw [@List.find?_cons_of_pos _ (fun q => q.1 == k') p
            (List.map (fun p => if (p.1 == k) = true then (k, v) else p) ps) hk',
            @List.find?_cons_of_pos _ (fun q => q.1 == k') p ps hk']
        · rw [@List.find?_cons_of_neg _ (fun q => q.1 == k') p
            (List.map (fun p => if (p.1 == k) = true then (k, v) else p) ps) hk',
            @List.find?_cons_of_neg _ (fun q => q.1 == k') p ps hk']
          exact ih
  · rw [if_neg hc]
    unfold dget
    rw [List.find?_append]
    have hnone : List.find? (fun p => p.1 == k') [(k, v)] = none := by
      simp [List.find?, hbeq]
    rw [hnone, Option.or_none]

lemma dget_dmerge_not_mem (m extra : Metadata) (k : String)
    (h : ∀ p ∈ extra, p.1 ≠ k) :
    dget (dmerge m extra) k = dget m k := by
  induction extra generalizing m with
  | nil => rfl
  | cons p ps ih =>
    unfold dmerge
    simp only [List.foldl_cons]
    have step : dget (dmerge (dinsert m p.1 p.2) ps) k = dget (dinsert m p.1 p.2) k :=
      ih (dinsert m p.1 p.2) (fun q hq => h q (List.mem_cons_of_mem _ hq))
    unfold dmerge at step
    rw [step, dget_dinsert_ne m p.1 k p.2 (Ne.symm (h p (List.mem_cons_self p ps)))]

lemma filter_dinsert_not_level (m : Metadata) (k : String) (v : MVal)
    (hk : ∀ w : MVal, isLevelEntry (k, w) = false) :
    (dinsert m k v).filter isLevelEntry = m.filter isLevelEntry := by
  unfold dinsert
  by_cases hc : m.any (fun p => p.1 == k)
  · rw [if_pos hc]
    clear hc
    induction m with
    | nil => rfl
    | cons p ps ih =>
      by_cases hp : p.1 == k
      · have hpk : p.1 = k := by simpa using hp
        have hfp : isLevelEntry p = false := by
          have := hk p.2
          rw [show ((k : String), p.2) = p from by rw [← hpk]] at this
          exact this
        simp only [List.map_cons, hp, ite_true, List.filter_cons, hfp, hk v]
        simpa using ih
      · simp only [List.map_cons, hp, Bool.false_eq_true, ite_false, List.filter_cons]
        rw [ih]
  · rw [if_neg hc, List.filter_append]
    simp [List.filter_cons, hk v]

lemma filter_dmerge_not_level (m extra : Metadata)
    (h : ∀ p ∈ extra, ∀ w : MVal, isLevelEntry (p.1, w) = false) :
    (dmerge m extra).filter isLevelEntry = m.filter isLevelEntry := by
  induction extra generalizing m with
  | nil => rfl
  | cons p ps ih =>
    unfold dmerge
    simp only [List.foldl_cons]
    have step := ih (dinsert m p.1 p.2) (fun q hq => h q (List.mem_cons_of_mem _ hq))
    unfold dmerge at step
    rw [step, filter_dinsert_not_level m p.1 p.2 (h p (List.mem_cons_self p ps))]

/-- Merging caller metadata free of the reserved keys does not change the C8
tuple of a chunk. -/
lemma tupleCore_merge (c : String × Metadata) (extra : Metadata)
    (h : ∀ p ∈ extra, p.1 ∉ chunkReservedKeys) :
    tupleCore (c.1, dmerge c.2 extra) = tupleCore c := by
  have hres : ∀ p ∈ extra, p.1 ∉ chunkReservedKeys := h
  unfold tupleCore
  have h1 : dget (dmerge c.2 extra) "split_id" = dget c.2 "split_id" :=
    dget_dmerge_not_mem _ _ _ (fun p hp he =>
      hres p hp (he ▸ (by simp [chunkReservedKeys])))
  have h2 : dget (dmerge c.2 extra) "table" = dget c.2 "table" :=
    dget_dmerge_not_mem _ _ _ (fun p hp he =>
      hres p hp (he ▸ (by simp [chunkReservedKeys])))
  have h3 : dget (dmerge c.2 extra) "length" = dget c.2 "length" :=
    dget_dmerge_not_mem _ _ _ (fun p hp he =>
      hres p hp (he ▸ (by simp [chunkReservedKeys])))
  have h4 : (dmerge c.2 extra).filter isLevelEntry = c.2.filter isLevelEntry := by
    refine filter_dmerge_not_level _ _ (fun p hp w => ?_)
    have hnl : p.1 ∉ levelKeys := fun hm =>
      hres p hp (by simp [chunkReservedKeys, hm])
    simpa [isLevelEntry] using hnl
  rw [h1, h2, h3, h4]

lemma annotateTablesGo_ne_nil (b : Bool) (n : Nat) (l : List Split) (h : l ≠ []) :
    annotateTablesGo b n l ≠ [] := by
  cases l with
  | nil => exact absurd rfl h
  | cons s rest =>
    unfold annotateTablesGo
    split
    · split <;> exact List.cons_ne_nil _ _
    · exact List.cons_ne_nil _ _

lemma except_ok_bind {ε α β : Type} (a : α) (f : α → Except ε β) :
    (Except.ok a : Except ε α) >>= f = f a := rfl

/-- The final caller-metadata phase of `chunk`: merge only when the dict is
truthy (non-empty). -/
def mergePhase (metadata : Option Metadata) (splits : List Split) : List Split :=
  match metadata with
  | some m =>
    if m.isEmpty then splits
    else splits.map (fun s => { s with metadata := dmerge s.metadata m })
  | none => splits

/-- On a non-empty split list and the default configuration, `chunk` runs the
four annotators in order and then the caller-metadata merge. -/
lemma chunk_default_ok (uids : Nat → String) (s0 : Split) (rest0 : List Split)
    (metadata : Option Metadata) :
    chunk {} uids (s0 :: rest0) metadata =
      Except.ok (mergePhase metadata (addLengthMap (numerateGo 0
        (annotateTablesGo false 0 (addUidGo uids 0 (s0 :: rest0)))))) := by
  have hne : annotateTablesGo false 0 (addUidGo uids 0 (s0 :: rest0)) ≠ [] :=
    annotateTablesGo_ne_nil _ _ _ (List.cons_ne_nil _ _)
  obtain ⟨t, ts, ht⟩ := List.exists_cons_of_ne_nil hne
  have ha : add_uid_to_splits uids (s0 :: rest0)
      = Except.ok (addUidGo uids 0 (s0 :: rest0)) := rfl
  have hb : annotate_tables_splits (addUidGo uids 0 (s0 :: rest0))
      = Except.ok (annotateTablesGo false 0 (addUidGo uids 0 (s0 :: rest0))) := rfl
  have hc : numerate_splits (annotateTablesGo false 0 (addUidGo uids 0 (s0 :: rest0)))
      = Except.ok (numerateGo 0 (annotateTablesGo false 0 (addUidGo uids 0 (s0 :: rest0)))) := by
    rw [ht]; rfl
  have hd : add_length_to_splits (numerateGo 0 (annotateTablesGo false 0
        (addUidGo uids 0 (s0 :: rest0))))
      = Except.ok (addLengthMap (numerateGo 0 (annotateTablesGo false 0
        (addUidGo uids 0 (s0 :: rest0))))) := by
    rw [ht]; rfl
  have he : ∀ m : Metadata, ¬ m.isEmpty →
      add_additional_metadata m (addLengthMap (numerateGo 0 (annotateTablesGo false 0
        (addUidGo uids 0 (s0 :: rest0)))))
      = Except.ok ((addLengthMap (numerateGo 0 (annotateTablesGo false 0
        (addUidGo uids 0 (s0 :: rest0))))).map
          (fun s => { s with metadata := dmerge s.metadata m })) := by
    intro m _
    rw [ht]; rfl
  simp only [chunk, beq_self_eq_true, ite_true, pure_bind, except_ok_bind, ha, hb, hc, hd]
  cases metadata with
  | none => rfl
  | some m =>
    by_cases hE : m.isEmpty
    · simp only [hE, ite_true, mergePhase]
      rfl
    · simp only [hE, Bool.false_eq_true, ite_false, he m hE, pure_bind, except_ok_bind,
        mergePhase]
      rfl

lemma map_chunkTuple_eq (l : List Split) :
    l.map chunkTuple = (l.map score).map tupleCore := by
  rw [List.map_map]
  rfl

lemma mergePhase_tuples (m : Metadata) (hm : ∀ p ∈ m, p.1 ∉ chunkReservedKeys)
    (l : List Split) :
    (mergePhase (some m) l).map chunkTuple = (l.map score).map tupleCore := by
  rw [show mergePhase (some m) l = if m.isEmpty then l
    else l.map (fun s => { s with metadata := dmerge s.metadata m }) from rfl]
  by_cases hE : m.isEmpty
  · rw [if_pos hE, map_chunkTuple_eq]
  · rw [if_neg hE, map_chunkTuple_eq, map_score_mergeMap, List.map_map]
    exact List.map_congr_left (fun c _ => tupleCore_merge c m hm)

/-- C8 (amended).  For every splitter output and every pair of caller
metadata dictionaries that avoid the annotator-owned keys (`split_id`,
`table`, `length`, `level1`..`level7`), two runs of `chunk` — with different
uuid streams and different caller metadata — produce the same ordered
sequence of `(content, split_id, levels, table, length)` tuples; a caller
dictionary containing one of the reserved keys would instead override the
corresponding annotation, because the merge is caller-last. -/
theorem chunk_tuple_spec (uids1 uids2 : Nat → String) (splits0 : List Split)
    (meta1 meta2 : Metadata)
    (h1 : ∀ p ∈ meta1, p.1 ∉ chunkReservedKeys)
    (h2 : ∀ p ∈ meta2, p.1 ∉ chunkReservedKeys) :
    (chunk {} uids1 splits0 (some meta1)).map (fun l => l.map chunkTuple) =
    (chunk {} uids2 splits0 (some meta2)).map (fun l => l.map chunkTuple) := by
  cases splits0 with
  | nil => rfl
  | cons s0 rest0 =>
    rw [chunk_default_ok, chunk_default_ok]
    simp only [Except.map]
    congr 1
    rw [mergePhase_tuples meta1 h1, mergePhase_tuples meta2 h2]
    have key : ∀ uids : Nat → String,
        ((addLengthMap (numerateGo 0 (annotateTablesGo false 0
          (addUidGo uids 0 (s0 :: rest0))))).map score)
        = (numerateCoreGo 0 (tablesCoreGo false 0 ((s0 :: rest0).map score))).map
            lengthCore := by
      intro uids
      rw [map_score_addLengthMap, map_score_numerateGo, map_score_tablesGo,
        map_score_addUidGo]
    rw [key uids1, key uids2]

/-- Witness for C8 at a concrete input: two runs on the same one-split file
with different uuid streams and different (reserved-free) caller metadata. -/
theorem chunk_tuple_spec_witness :
    (∀ p ∈ [(("citation_key" : String), MVal.str "x")], p.1 ∉ chunkReservedKeys) ∧
    (∀ p ∈ [(("citation_key" : String), MVal.str "y")], p.1 ∉ chunkReservedKeys) ∧
    (chunk {} uidsFix [c7RawSplit] (some [("citation_key", MVal.str "x")])).map
        (fun l => l.map chunkTuple) =
      (chunk {} (fun _ => "feedbeef") [c7RawSplit] (some [("citation_key", MVal.str "y")])).map
        (fun l => l.map chunkTuple) :=
  ⟨by decide, by decide,
    chunk_tuple_spec uidsFix (fun _ => "feedbeef") [c7RawSplit]
      [("citation_key", MVal.str "x")] [("citation_key", MVal.str "y")]
      (by decide) (by decide)⟩

/-- C8 counterexample.  As stated — for EVERY pair of caller metadata
dictionaries — the claim fails: a caller dictionary carrying the key `length`
overrides the length annotation (the merge is caller-last), so the tuple
sequences of the two runs differ. -/
theorem chunk_tuple_claim_counterexample :
    (chunk {} uidsFix [c7RawSplit] (some [("length", MVal.int 0)])).map
        (fun l => l.map chunkTuple) =
      Except.ok [("Some text", some (MVal.int 0), [("level1", MVal.str "Introduction")],
        some (MVal.bool false), some (MVal.int 0))] ∧
    (chunk {} uidsFix [c7RawSplit] (some ([] : Metadata))).map
        (fun l => l.map chunkTuple) =
      Except.ok [("Some text", some (MVal.int 0), [("level1", MVal.str "Introduction")],
        some (MVal.bool false), some (MVal.int 9))] ∧
    some (MVal.int 0) ≠ some (MVal.int 9) :=
  ⟨rfl, rfl, by decide⟩

/-! The vector index and the PDF indexer, from `src/storages/ChromaStorage.py`
and `src/zotero/ZoteroPdfIndexer.py`.  A stored chunk is a langchain document
(`Split`); the index is the list of stored chunks in insertion order, each
chunk standing for its own uid. -/

/-- The vector index content: stored chunks in insertion order. -/
abbrev Index := List Split

/-- Embedding of `ChromaStorage.uids_from_item_id`: all stored chunks whose
`item_id` metadata equals the requested value. -/
def uids_from_item_id (s : Index) (v : MVal) : Index :=
  s.filter (fun c => dget c.metadata "item_id" == some v)

/-- Embedding of `ChromaStorage.delete_by_item_id`: removes every chunk whose
`item_id` matches and returns the new state with the number removed (0, and
no change, when nothing matched). -/
def delete_by_item_id (s : Index) (v : MVal) : Index × Nat :=
  let uids := uids_from_item_id s v
  if uids.length = 0 then (s, 0)
  else (s.filter (fun c => ¬ (dget c.metadata "item_id" == some v)), uids.length)

/-- Embedding of `ChromaStorage.add_documents`: stamps `added_at` with the
wall-clock time `τ` on every document, appends, and returns the new state
together with the inserted documents. -/
def add_documents (τ : ℚ) (s : Index) (docs : List Split) : Index × List Split :=
  let stamped := docs.map (fun c =>
    { c with metadata := dinsert c.metadata "added_at" (.rat τ) })
  (s ++ stamped, stamped)

/-- Embedding of `ChromaStorage.clear`: delete the collection and recreate an
empty one under the same name. -/
def clear (s : Index) : Index :=
  let _ := s
  []

/-- Per-item statistics entry of `get_collection_stats`. -/
structure ItemStat where
  count : Nat
  title : MVal
  storage_key : MVal
  citation_key : MVal
deriving DecidableEq, Repr

/-- Fold step building the per-item stats map of `get_collection_stats`
(insertion-ordered; the first chunk of an item contributes the displayed
fields, every chunk bumps the count). -/
def statsFold (items : List (MVal × ItemStat)) (c : Split) : List (MVal × ItemStat) :=
  let item_id := (dget c.metadata "item_id").getD (.str "unknown")
  let title := (dget c.metadata "title").getD (.str "No title")
  let storage_key := (dget c.metadata "storage_key").getD (.str "unknown")
  let citation_key := (dget c.metadata "citation_key").getD (.str "unknown")
  if items.any (fun p => p.1 == item_id) then
    items.map (fun p =>
      if p.1 == item_id then (p.1, { p.2 with count := p.2.count + 1 }) else p)
  else
    items ++ [(item_id,
      { count := 1, title := title, storage_key := storage_key,
        citation_key := citation_key })]

/-- Embedding of `ChromaStorage.get_collection_stats`: total element count
and the per-item map. -/
def get_collection_stats (s : Index) : Nat × List (MVal × ItemStat) :=
  (s.length, s.foldl statsFold [])

/-- Embedding of `PdfIndexer.clear_index`: without `confirm` it refuses;
with `confirm` it calls `ChromaStorage.clear`. -/
def clear_index (confirm : Bool) (s : Index) : Index × Bool :=
  if ¬ confirm then (s, false)
  else (clear s, true)

/-- C10.  For every index state, `clear_index(confirm=false)` returns `false`
and leaves the vector index unchanged (no collection deleted or recreated);
with `confirm=true` the collection is destroyed and recreated empty. -/
theorem clear_index_spec (s : Index) :
    clear_index false s = (s, false) ∧ clear_index true s = ([], true) :=
  ⟨rfl, rfl⟩

/-- A Zotero item as the indexer receives it: the resolved PDF path and the
parsed metadata dictionary. -/
structure Item where
  pdf_path : String
  metadata : Metadata
deriving DecidableEq, Repr

/-- Events the indexer issues against the vector index, in order. -/
inductive IxEvent where
  | del (item_id : MVal)
  | add (chunks : List Split)
deriving DecidableEq, Repr

/-- Aggregate result of a batch run, from
`src/configs/pdf_indexer_config.py`. -/
structure IndexingResult where
  total_items : Nat
  successful : Nat
  failed : Nat
  failed_items : List (String × Metadata × Option String)
  chunks_created : Nat
deriving DecidableEq, Repr

/-- Embedding of `_chunk_markdown`: run the Chunker on the splitter output of
the markdown file with the item metadata merged in; any exception (in
particular the empty-split guard) is caught and turned into an empty
result. -/
def chunk_markdown (uids : Nat → String) (raw : List Split) (meta : Metadata) :
    List Split :=
  match chunk {} uids raw (some meta) with
  | .ok cs => cs
  | .error _ => []

/-- Embedding of the repository-side checks of `_convert_to_markdown`:
conversion fails when the metadata has no truthy `storage_key`; otherwise it
succeeds exactly when the external converter does (`convertOk`, a
deterministic function of the item since the markdown cache is keyed by
storage key and reused). -/
def convert_to_markdown_ok (convertOk : Item → Bool) (it : Item) : Bool :=
  match dget it.metadata "storage_key" with
  | none => false
  | some v => if mvalTruthy v then convertOk it else false

/-- The chunks produced for an item (conversion output abstracted by
`splitsFor`, fresh uuids by `uidsFor`). -/
def item_chunks (splitsFor : Item → List Split) (uidsFor : Item → Nat → String)
    (it : Item) : List Split :=
  chunk_markdown (uidsFor it) (splitsFor it) it.metadata

/-- Embedding of `_process_single_item` (convert, chunk, index): returns the
updated index, the events issued, and `(success, chunk count, reason)`. -/
def process_single_item (convertOk : Item → Bool) (splitsFor : Item → List Split)
    (uidsFor : Item → Nat → String) (τ : ℚ) (s : Index) (it : Item) :
    Index × List IxEvent × (Bool × Nat × Option String) :=
  if ¬ convert_to_markdown_ok convertOk it then
    (s, [], (false, 0, some "Markdown conversion failed"))
  else
    let chunks := item_chunks splitsFor uidsFor it
    if chunks.isEmpty then (s, [], (false, 0, some "No chunks created"))
    else
      let (s', stamped) := add_documents τ s chunks
      (s', [IxEvent.add stamped], (true, chunks.length, none))

/-- Recursion of `_index_items_batch` over the item list, threading the index
state, the issued events and the aggregate counters. -/
def batchGo (convertOk : Item → Bool) (splitsFor : Item → List Split)
    (uidsFor : Item → Nat → String) (τ : ℚ) :
    Index → IndexingResult → List Item → Index × List IxEvent × IndexingResult
  | s, r, [] => (s, [], r)
  | s, r, it :: rest =>
    let (s', evs', out) := process_single_item convertOk splitsFor uidsFor τ s it
    let r' := match out with
      | (true, count, _) =>
        { r with successful := r.successful + 1,
                 chunks_created := r.chunks_created + count }
      | (false, _, reason) =>
        { r with failed := r.failed + 1,
                 failed_items := r.failed_items ++ [(it.pdf_path, it.metadata, reason)] }
    let (s2, evs2, r2) := batchGo convertOk splitsFor uidsFor τ s' r' rest
    (s2, evs' ++ evs2, r2)

/-- Embedding of `_index_items_batch`. -/
def index_items_batch (convertOk : Item → Bool) (splitsFor : Item → List Split)
    (uidsFor : Item → Nat → String) (τ : ℚ) (items : List Item) (s : Index) :
    Index × List IxEvent × IndexingResult :=
  batchGo convertOk splitsFor uidsFor τ s ⟨items.length, 0, 0, [], 0⟩ items

/-- Step 2 of `update_index`: the fold over the fetched items that skips
items without a truthy id, skips already-indexed items when not forcing,
deletes first and keeps the item when forcing, and otherwise keeps the
item. -/
def filterPhase (force : Bool) :
    Index × List IxEvent × List Item → List Item → Index × List IxEvent × List Item
  | acc, [] => acc
  | (s, evs, todo), it :: rest =>
    match pyOrM (dget it.metadata "item_id") (dget it.metadata "key") with
    | none => filterPhase force (s, evs, todo) rest
    | some v =>
      if ¬ mvalTruthy v then filterPhase force (s, evs, todo) rest
      else if (uids_from_item_id s v).length > 0 then
        if force then
          filterPhase force
            ((delete_by_item_id s v).1, evs ++ [IxEvent.del v], todo ++ [it]) rest
        else filterPhase force (s, evs, todo) rest
      else filterPhase force (s, evs, todo ++ [it]) rest

/-- Embedding of `PdfIndexer.update_index`, entered with the already-fetched
item list (the `ITEM_LIST` query type passes the caller value through
unchanged; the other query types consult the Zotero client first).  Phase 1
filters existing items, deleting existing chunks first when `force`; phase 2
indexes the remaining items in order.  `τ` is the wall-clock stamp for the
added chunks. -/
def update_index (convertOk : Item → Bool) (splitsFor : Item → List Split)
    (uidsFor : Item → Nat → String) (τ : ℚ) (items : List Item) (force : Bool)
    (s0 : Index) : Index × List IxEvent × IndexingResult :=
  let (s1, evs1, todo) := filterPhase force (s0, [], []) items
  let (s2, evs2, result) := index_items_batch convertOk splitsFor uidsFor τ todo s1
  (s2, evs1 ++ evs2, result)

/-- A markdown file found by `index_all_markdown_files`: its path and the
name of its parent directory (taken as the storage key). -/
structure MdFile where
  path : String
  storage_key : String
deriving DecidableEq, Repr

/-- Modelled from the spec: the Zotero client operations
`get_item_id_from_storage_key` and `get_item_by_id` that
`index_all_markdown_files` calls are missing from the repository (only the
call sites exist).  Per the spec, the indexer infers the storage key from the
parent directory name and re-fetches the BibItem; the two operations are
modelled as abstract lookups from storage key to item id and from item id to
the parsed item metadata. -/
structure ZoteroLookup where
  get_item_id_from_storage_key : String → Option String
  get_item_by_id : String → Metadata

/-- Embedding of `PdfIndexer.index_all_markdown_files`: the set of
storage keys already indexed is computed once from `stats`; files whose
storage key is in it are skipped unless `force_reindex`; remaining files are
chunked with the re-fetched item metadata and ADDED — no chunks are deleted
first on this path. -/
def index_all_markdown_files (zot : ZoteroLookup) (splitsForMd : MdFile → List Split)
    (uidsForMd : MdFile → Nat → String) (τ : ℚ) (force_reindex : Bool)
    (mdFiles : List MdFile) (s0 : Index) : Index × List IxEvent × IndexingResult :=
  let indexed_storage_keys := (get_collection_stats s0).2.map (fun p => p.2.storage_key)
  let step := fun (acc : Index × List IxEvent × IndexingResult) (md : MdFile) =>
    let (s, evs, r) := acc
    if indexed_storage_keys.contains (.str md.storage_key) && !force_reindex then acc
    else
      match zot.get_item_id_from_storage_key md.storage_key with
      | none => acc
      | some item_id =>
        if item_id = "" then acc
        else
          let metadata := zot.get_item_by_id item_id
          let chunks := chunk_markdown (uidsForMd md) (splitsForMd md) metadata
          if chunks.isEmpty then
            let fi := r.failed_items ++ [(md.path, metadata, some "No chunks created")]
            let r' := { r with failed := r.failed + 1, failed_items := fi }
            (s, evs, r')
          else
            let (s', stamped) := add_documents τ s chunks
            let cc := r.chunks_created + chunks.length
            let r' := { r with successful := r.successful + 1, chunks_created := cc }
            (s', evs ++ [IxEvent.add stamped], r')
  mdFiles.foldl step (s0, [], ⟨mdFiles.length, 0, 0, [], 0⟩)

/-- The pre-existing chunk of item `I1` for the C4 failing input. -/
def oldChunk : Split :=
  { id := "olduid"
    page_content := "old content"
    metadata := [("item_id", .str "I1"), ("storage_key", .str "SK"), ("split_id", .int 0)] }

/-- The Zotero lookups for the C4 failing input. -/
def c4Zot : ZoteroLookup :=
  { get_item_id_from_storage_key := fun k => if k = "SK" then some "I1" else none
    get_item_by_id := fun i =>
      if i = "I1" then [("item_id", .str "I1"), ("storage_key", .str "SK")] else [] }

/-- The new-generation chunk inserted by the C4 failing run. -/
def c4NewChunk : Split :=
  { id := "0123abcdef"
    page_content := "Some text"
    metadata := [("level1", .str "Introduction"), ("table", .bool false),
      ("split_id", .int 0), ("length", .int 9), ("item_id", .str "I1"),
      ("storage_key", .str "SK"), ("added_at", .rat 0)] }

/-- C4 failing input, evaluated.  Re-indexing an already-indexed item through
`index_all_markdown_files` with `force_reindex=true` issues no delete: the
final state holds the old-generation chunk AND a new-generation chunk of the
same item, and the only event is the add — a mixed-generation state is
observable (and persists). -/
theorem index_all_markdown_files_mixed_generation_bug :
    index_all_markdown_files c4Zot (fun _ => [c7RawSplit]) (fun _ => uidsFix) 0 true
        [⟨"/md/SK/file.md", "SK"⟩] [oldChunk]
      = ([oldChunk, c4NewChunk], [IxEvent.add [c4NewChunk]],
          ⟨1, 1, 0, [], 1⟩) ∧
    dget oldChunk.metadata "item_id" = dget c4NewChunk.metadata "item_id" :=
  ⟨rfl, rfl⟩

/-! C9 machinery: `update_index` with `force=false` run twice. -/

lemma dget_dinsert_self (m : Metadata) (k : String) (v : MVal) :
    dget (dinsert m k v) k = some v := by
  unfold dinsert
  by_cases hc : m.any (fun p => p.1 == k)
  · rw [if_pos hc]
    unfold dget
    induction m with
    | nil => simp at hc
    | cons p ps ih =>
      by_cases hp : p.1 == k
      · simp only [List.map_cons, hp, ite_true]
        rw [List.find?_cons_of_pos _ (by simp)]
        rfl
      · simp only [List.map_cons, hp, Bool.false_eq_true, ite_false]
        rw [@List.find?_cons_of_neg _ (fun q => q.1 == k) p
          (List.map (fun p => if (p.1 == k) = true then (k, v) else p) ps) hp]
        apply ih
        simp only [List.any_cons, hp, Bool.false_or] at hc
        exact hc
  · rw [if_neg hc]
    unfold dget
    rw [List.find?_append]
    have h1 : List.find? (fun p => p.1 == k) m = none := by
      rw [List.find?_eq_none]
      intro x hx hxk
      exact hc (List.any_eq_true.mpr ⟨x, hx, hxk⟩)
    rw [h1]
    simp [List.find?]

/-- A first binding of a key survives a caller-last merge when the merged
dictionary has no duplicate keys (always true of a Python dict). -/
lemma dget_dmerge_first (a b : Metadata) (k : String) (v : MVal)
    (hb : dget b k = some v) (hnd : (b.map Prod.fst).Nodup) :
    dget (dmerge a b) k = some v := by
  induction b generalizing a with
  | nil => simp [dget] at hb
  | cons p ps ih =>
    unfold dmerge
    simp only [List.foldl_cons]
    simp only [List.map_cons, List.nodup_cons] at hnd
    by_cases hp : p.1 == k
    · have hpk : p.1 = k := by simpa using hp
      have hv : v = p.2 := by
        unfold dget at hb
        rw [@List.find?_cons_of_pos _ (fun q => q.1 == k) p ps hp] at hb
        simpa using hb.symm
      have hknotin : ∀ q ∈ ps, q.1 ≠ k := by
        intro q hq he
        exact hnd.1 (hpk ▸ he ▸ List.mem_map_of_mem Prod.fst hq)
      have step : dget (dmerge (dinsert a p.1 p.2) ps) k = dget (dinsert a p.1 p.2) k :=
        dget_dmerge_not_mem _ _ _ hknotin
      unfold dmerge at step
      rw [step, hpk, dget_dinsert_self, hv]
    · have hb' : dget ps k = some v := by
        unfold dget at hb ⊢
        rwa [@List.find?_cons_of_neg _ (fun q => q.1 == k) p ps hp] at hb
      have := ih (dinsert a p.1 p.2) hb' hnd.2
      unfold dmerge at this
      exact this

/-- All chunks produced for an item carry the item-metadata `item_id`. -/
lemma item_chunks_item_id (splitsFor : Item → List Split)
    (uidsFor : Item → Nat → String) (it : Item) (v : MVal)
    (hid : dget it.metadata "item_id" = some v)
    (hnd : (it.metadata.map Prod.fst).Nodup) :
    ∀ c ∈ item_chunks splitsFor uidsFor it, dget c.metadata "item_id" = some v := by
  intro c hc
  unfold item_chunks chunk_markdown at hc
  cases hsp : splitsFor it with
  | nil =>
    rw [hsp] at hc
    simp [chunk_empty_file_raises] at hc
  | cons s0 rest =>
    rw [hsp, chunk_default_ok] at hc
    simp only at hc
    have hne : it.metadata.isEmpty = false := by
      cases hm : it.metadata with
      | nil => rw [hm] at hid; simp [dget] at hid
      | cons q qs => rfl
    rw [show mergePhase (some it.metadata)
        (addLengthMap (numerateGo 0 (annotateTablesGo false 0
          (addUidGo (uidsFor it) 0 (s0 :: rest)))))
      = if it.metadata.isEmpty then
          addLengthMap (numerateGo 0 (annotateTablesGo false 0
            (addUidGo (uidsFor it) 0 (s0 :: rest))))
        else (addLengthMap (numerateGo 0 (annotateTablesGo false 0
            (addUidGo (uidsFor it) 0 (s0 :: rest))))).map
          (fun s => { s with metadata := dmerge s.metadata it.metadata }) from rfl,
      hne] at hc
    simp only [Bool.false_eq_true, if_neg, ite_false] at hc
    obtain ⟨x, _, hxc⟩ := List.mem_map.mp hc
    rw [← hxc]
    exact dget_dmerge_first _ _ _ _ hid hnd

/-- Whether processing an item reaches the index at all: the conversion
succeeds and the chunker yields chunks.  Independent of the index state. -/
def itemAdds (convertOk : Item → Bool) (splitsFor : Item → List Split)
    (uidsFor : Item → Nat → String) (it : Item) : Bool :=
  convert_to_markdown_ok convertOk it && !(item_chunks splitsFor uidsFor it).isEmpty

lemma process_single_item_of_not_adds {convertOk : Item → Bool}
    {splitsFor : Item → List Split} {uidsFor : Item → Nat → String} {τ : ℚ}
    {it : Item} (h : itemAdds convertOk splitsFor uidsFor it = false) (s : Index) :
    process_single_item convertOk splitsFor uidsFor τ s it =
      (s, [], (false, 0,
        if ¬ convert_to_markdown_ok convertOk it then some "Markdown conversion failed"
        else some "No chunks created")) := by
  unfold itemAdds at h
  unfold process_single_item
  by_cases h1 : convert_to_markdown_ok convertOk it
  · simp only [h1, Bool.true_and, Bool.not_eq_false'] at h
    simp [h1, h]
  · simp [h1]

lemma process_single_item_of_adds {convertOk : Item → Bool}
    {splitsFor : Item → List Split} {uidsFor : Item → Nat → String} {τ : ℚ}
    {it : Item} (h : itemAdds convertOk splitsFor uidsFor it = true) (s : Index) :
    process_single_item convertOk splitsFor uidsFor τ s it =
      (s ++ (item_chunks splitsFor uidsFor it).map (fun c =>
          { c with metadata := dinsert c.metadata "added_at" (.rat τ) }),
        [IxEvent.add ((item_chunks splitsFor uidsFor it).map (fun c =>
          { c with metadata := dinsert c.metadata "added_at" (.rat τ) }))],
        (true, (item_chunks splitsFor uidsFor it).length, none)) := by
  unfold itemAdds at h
  rw [Bool.and_eq_true] at h
  obtain ⟨h1, h2⟩ := h
  unfold process_single_item
  rw [if_neg (by simp [h1])]
  simp only [Bool.not_eq_true', Bool.not_eq_false'] at h2
  simp [h2, add_documents]

lemma uids_append (s t : Index) (v : MVal) :
    uids_from_item_id (s ++ t) v = uids_from_item_id s v ++ uids_from_item_id t v :=
  List.filter_append _ _

lemma batchGo_state_mono (convertOk : Item → Bool) (splitsFor : Item → List Split)
    (uidsFor : Item → Nat → String) (τ : ℚ) (l : List Item) :
    ∀ (s : Index) (r : IndexingResult),
      ∃ t, (batchGo convertOk splitsFor uidsFor τ s r l).1 = s ++ t := by
  induction l with
  | nil => intro s r; exact ⟨[], by simp [batchGo]⟩
  | cons it rest ih =>
    intro s r
    unfold batchGo
    by_cases h : itemAdds convertOk splitsFor uidsFor it
    · rw [process_single_item_of_adds h]
      simp only
      obtain ⟨t, ht⟩ := ih (s ++ (item_chunks splitsFor uidsFor it).map (fun c =>
          { c with metadata := dinsert c.metadata "added_at" (.rat τ) }))
        { r with successful := r.successful + 1,
                 chunks_created := r.chunks_created + (item_chunks splitsFor uidsFor it).length }
      refine ⟨(item_chunks splitsFor uidsFor it).map (fun c =>
        { c with metadata := dinsert c.metadata "added_at" (.rat τ) }) ++ t, ?_⟩
      rw [ht, List.append_assoc]
    · simp only [Bool.not_eq_true] at h
      rw [process_single_item_of_not_adds h]
      simp only
      exact ih s _

lemma batchGo_of_all_fail (convertOk : Item → Bool) (splitsFor : Item → List Split)
    (uidsFor : Item → Nat → String) (τ : ℚ) (l : List Item)
    (h : ∀ it ∈ l, itemAdds convertOk splitsFor uidsFor it = false) :
    ∀ (s : Index) (r : IndexingResult),
      (batchGo convertOk splitsFor uidsFor τ s r l).1 = s ∧
      (batchGo convertOk splitsFor uidsFor τ s r l).2.1 = [] := by
  induction l with
  | nil => intro s r; exact ⟨rfl, rfl⟩
  | cons it rest ih =>
    intro s r
    have ihr := ih (fun x hx => h x (List.mem_cons_of_mem _ hx))
    unfold batchGo
    rw [process_single_item_of_not_adds (h it (List.mem_cons_self it rest))]
    simp only
    obtain ⟨ih1, ih2⟩ := ihr s _
    exact ⟨ih1, by rw [List.nil_append]; exact ih2⟩

lemma batchGo_adds_uids (convertOk : Item → Bool) (splitsFor : Item → List Split)
    (uidsFor : Item → Nat → String) (τ : ℚ) (it : Item) (v : MVal)
    (hadds : itemAdds convertOk splitsFor uidsFor it = true)
    (hall : ∀ c ∈ item_chunks splitsFor uidsFor it, dget c.metadata "item_id" = some v)
    (l : List Item) (hmem : it ∈ l) :
    ∀ (s : Index) (r : IndexingResult),
      uids_from_item_id (batchGo convertOk splitsFor uidsFor τ s r l).1 v ≠ [] := by
  induction l with
  | nil => cases hmem
  | cons x rest ih =>
    intro s r
    unfold batchGo
    rcases List.mem_cons.mp hmem with heq | hrest
    · subst heq
      rw [process_single_item_of_adds hadds]
      simp only
      obtain ⟨t, ht⟩ := batchGo_state_mono convertOk splitsFor uidsFor τ rest
        (s ++ (item_chunks splitsFor uidsFor it).map (fun c =>
          { c with metadata := dinsert c.metadata "added_at" (.rat τ) }))
        { r with successful := r.successful + 1,
                 chunks_created := r.chunks_created + (item_chunks splitsFor uidsFor it).length }
      rw [ht]
      intro hcontra
      rw [List.append_assoc, uids_append] at hcontra
      have hne : uids_from_item_id ((item_chunks splitsFor uidsFor it).map (fun c =>
          { c with metadata := dinsert c.metadata "added_at" (.rat τ) }) ++ t) v ≠ [] := by
        rw [uids_append]
        intro h2
        have h3 := List.append_eq_nil.mp h2
        obtain ⟨c0, hc0⟩ : ∃ c0, c0 ∈ item_chunks splitsFor uidsFor it := by
          unfold itemAdds at hadds
          rw [Bool.and_eq_true] at hadds
          have hnn : item_chunks splitsFor uidsFor it ≠ [] := by
            intro hnil
            rw [hnil] at hadds
            simp at hadds
          exact List.exists_mem_of_ne_nil _ hnn
        have hc0id : dget (dinsert c0.metadata "added_at" (.rat τ)) "item_id" = some v := by
          rw [dget_dinsert_ne _ _ _ _ (by decide)]
          exact hall c0 hc0
        have hc0mem : ({ c0 with metadata := dinsert c0.metadata "added_at" (.rat τ) } : Split)
            ∈ uids_from_item_id ((item_chunks splitsFor uidsFor it).map (fun c =>
              { c with metadata := dinsert c.metadata "added_at" (.rat τ) })) v := by
          unfold uids_from_item_id
          rw [List.mem_filter]
          exact ⟨List.mem_map_of_mem _ hc0, by simp [hc0id]⟩
        rw [h3.1] at hc0mem
        cases hc0mem
      exact hne (List.append_eq_nil.mp hcontra).2
    · by_cases hx : itemAdds convertOk splitsFor uidsFor x
      · rw [process_single_item_of_adds hx]
        simp only
        exact ih hrest _ _
      · simp only [Bool.not_eq_true] at hx
        rw [process_single_item_of_not_adds hx]
        simp only
        exact ih hrest _ _

/-- Whether `update_index` (with `force=false`) keeps an item for phase 2:
it must have a truthy id and no chunks in the index. -/
def takeP (s : Index) (it : Item) : Bool :=
  match pyOrM (dget it.metadata "item_id") (dget it.metadata "key") with
  | none => false
  | some v => mvalTruthy v && (uids_from_item_id s v).length = 0

lemma filterPhase_noforce (l : List Item) :
    ∀ (s : Index) (evs : List IxEvent) (todo : List Item),
      filterPhase false (s, evs, todo) l = (s, evs, todo ++ l.filter (takeP s)) := by
  induction l with
  | nil => intro s evs todo; simp [filterPhase]
  | cons it rest ih =>
    intro s evs todo
    unfold filterPhase
    generalize hor : pyOrM (dget it.metadata "item_id") (dget it.metadata "key") = o
    cases o with
    | none =>
      rw [ih]
      have hf : takeP s it = false := by unfold takeP; rw [hor]
      rw [List.filter_cons, hf]
      simp
    | some v =>
      show (if ¬ mvalTruthy v then filterPhase false (s, evs, todo) rest
        else if (uids_from_item_id s v).length > 0 then
          if false then filterPhase false ((delete_by_item_id s v).1,
            evs ++ [IxEvent.del v], todo ++ [it]) rest
          else filterPhase false (s, evs, todo) rest
        else filterPhase false (s, evs, todo ++ [it]) rest)
        = (s, evs, todo ++ List.filter (takeP s) (it :: rest))
      by_cases htr : mvalTruthy v
      · by_cases hlen : (uids_from_item_id s v).length > 0
        · rw [if_neg (by simpa using htr), if_pos hlen]
          have hf : takeP s it = false := by
            unfold takeP
            rw [hor]
            have hne : (uids_from_item_id s v).length ≠ 0 := Nat.pos_iff_ne_zero.mp hlen
            simp [htr, hne]
          rw [show (if false then
              filterPhase false ((delete_by_item_id s v).1, evs ++ [IxEvent.del v],
                todo ++ [it]) rest
            else filterPhase false (s, evs, todo) rest)
            = filterPhase false (s, evs, todo) rest from by simp]
          rw [ih, List.filter_cons, hf]
          simp
        · rw [if_neg (by simpa using htr), if_neg hlen]
          have hf : takeP s it = true := by
            unfold takeP
            rw [hor]
            simp [htr, Nat.eq_zero_of_not_pos hlen]
          rw [ih, List.filter_cons, hf]
          simp
      · rw [if_pos (by simpa using htr)]
        have hf : takeP s it = false := by
          unfold takeP
          rw [hor]
          simp [htr]
        rw [ih, List.filter_cons, hf]
        simp

/-- With `force=false`, `update_index` is phase 2 on the kept items. -/
lemma update_index_noforce (convertOk : Item → Bool) (splitsFor : Item → List Split)
    (uidsFor : Item → Nat → String) (τ : ℚ) (items : List Item) (s0 : Index) :
    update_index convertOk splitsFor uidsFor τ items false s0 =
      batchGo convertOk splitsFor uidsFor τ s0
        ⟨(items.filter (takeP s0)).length, 0, 0, [], 0⟩ (items.filter (takeP s0)) := by
  unfold update_index index_items_batch
  rw [filterPhase_noforce]
  simp

/-- C9 (amended).  When every item carries a truthy `item_id` in its metadata
(as all items produced by the Zotero client do; Python dict keys are
duplicate-free), running `update_index` a second time with `force=false` on
the same inputs performs no deletions and no insertions — it issues no index
events at all — and leaves the index state, hence `stats()`, unchanged.  An
item whose metadata only has the fallback `key` field breaks this: its chunks
carry no `item_id`, so the existence check never sees them and the second run
re-inserts. -/
theorem update_index_noforce_idempotent (convertOk : Item → Bool)
    (splitsFor : Item → List Split) (uidsFor : Item → Nat → String) (τ1 τ2 : ℚ)
    (items : List Item) (s0 : Index)
    (hid : ∀ it ∈ items, ∃ v, dget it.metadata "item_id" = some v ∧ mvalTruthy v = true)
    (hnd : ∀ it ∈ items, (it.metadata.map Prod.fst).Nodup) :
    (update_index convertOk splitsFor uidsFor τ2 items false
        (update_index convertOk splitsFor uidsFor τ1 items false s0).1).1
      = (update_index convertOk splitsFor uidsFor τ1 items false s0).1 ∧
    (update_index convertOk splitsFor uidsFor τ2 items false
        (update_index convertOk splitsFor uidsFor τ1 items false s0).1).2.1 = [] ∧
    get_collection_stats (update_index convertOk splitsFor uidsFor τ2 items false
        (update_index convertOk splitsFor uidsFor τ1 items false s0).1).1
      = get_collection_stats
          (update_index convertOk splitsFor uidsFor τ1 items false s0).1 := by
  set s1 := (update_index convertOk splitsFor uidsFor τ1 items false s0).1 with hs1
  have hb : s1 = (batchGo convertOk splitsFor uidsFor τ1 s0
      ⟨(items.filter (takeP s0)).length, 0, 0, [], 0⟩ (items.filter (takeP s0))).1 := by
    rw [hs1, update_index_noforce]
  obtain ⟨t1, ht1⟩ : ∃ t, s1 = s0 ++ t := by
    rw [hb]
    exact batchGo_state_mono _ _ _ _ _ _ _
  have hkey : ∀ it ∈ items.filter (takeP s1),
      itemAdds convertOk splitsFor uidsFor it = false := by
    intro it hit
    rw [List.mem_filter] at hit
    obtain ⟨hmem, htake⟩ := hit
    obtain ⟨v, hv, htr⟩ := hid it hmem
    have hor : pyOrM (dget it.metadata "item_id") (dget it.metadata "key") = some v := by
      rw [hv]
      simp [pyOrM, htr]
    have huids1 : uids_from_item_id s1 v = [] := by
      unfold takeP at htake
      rw [hor] at htake
      simp only [htr, Bool.true_and, decide_eq_true_eq] at htake
      exact List.length_eq_zero.mp htake
    have huids0 : uids_from_item_id s0 v = [] := by
      rw [ht1, uids_append] at huids1
      exact (List.append_eq_nil.mp huids1).1
    have hin1 : it ∈ items.filter (takeP s0) := by
      rw [List.mem_filter]
      refine ⟨hmem, ?_⟩
      unfold takeP
      rw [hor]
      simp [htr, huids0]
    by_contra hAdds
    rw [Bool.not_eq_false] at hAdds
    have hall := item_chunks_item_id splitsFor uidsFor it v hv (hnd it hmem)
    have hne := batchGo_adds_uids convertOk splitsFor uidsFor τ1 it v hAdds hall
      (items.filter (takeP s0)) hin1 s0
      ⟨(items.filter (takeP s0)).length, 0, 0, [], 0⟩
    rw [← hb] at hne
    exact hne huids1
  have h2 := batchGo_of_all_fail convertOk splitsFor uidsFor τ2
    (items.filter (takeP s1)) hkey s1
    ⟨(items.filter (takeP s1)).length, 0, 0, [], 0⟩
  refine ⟨?_, ?_, ?_⟩
  · rw [update_index_noforce]
    exact h2.1
  · rw [update_index_noforce]
    exact h2.2
  · rw [update_index_noforce, h2.1]

/-- Item used in the C9 witness: proper `item_id` metadata. -/
def c9GoodItem : Item :=
  { pdf_path := "paper.pdf"
    metadata := [("item_id", .str "I1"), ("storage_key", .str "SK")] }

/-- Witness for C9 at a concrete input: one properly-labelled item, an empty
initial index, two runs at different wall-clock times. -/
theorem update_index_noforce_idempotent_witness :
    (∀ it ∈ [c9GoodItem], ∃ v, dget it.metadata "item_id" = some v
        ∧ mvalTruthy v = true) ∧
    (update_index (fun _ => true) (fun _ => [c7RawSplit]) (fun _ => uidsFix) 1
        [c9GoodItem] false
        (update_index (fun _ => true) (fun _ => [c7RawSplit]) (fun _ => uidsFix) 0
          [c9GoodItem] false []).1).1
      = (update_index (fun _ => true) (fun _ => [c7RawSplit]) (fun _ => uidsFix) 0
          [c9GoodItem] false []).1 :=
  ⟨fun it hit => by
      rw [List.mem_singleton.mp hit]
      exact ⟨.str "I1", by decide, by decide⟩,
    (update_index_noforce_idempotent (fun _ => true) (fun _ => [c7RawSplit])
      (fun _ => uidsFix) 0 1 [c9GoodItem] []
      (fun it hit => by
        rw [List.mem_singleton.mp hit]
        exact ⟨.str "I1", by decide, by decide⟩)
      (fun it hit => by
        rw [List.mem_singleton.mp hit]
        decide)).1⟩

/-- Item used in the C9 counterexample: only the fallback `key` field. -/
def c9KeyItem : Item :=
  { pdf_path := "paper.pdf"
    metadata := [("key", .str "A"), ("storage_key", .str "SK")] }

/-- C9 counterexample.  An item whose metadata carries only the fallback
`key` (accepted by `update_index` through `metadata.get("item_id") or
metadata.get("key")`) produces chunks WITHOUT `item_id` metadata; the
existence check `uids_from_item_id` never sees them, so a second
`force=false` run re-inserts everything: the total chunk count doubles and
`stats()` changes. -/
theorem update_index_idempotence_counterexample :
    (get_collection_stats (update_index (fun _ => true) (fun _ => [c7RawSplit])
        (fun _ => uidsFix) 0 [c9KeyItem] false []).1).1 = 1 ∧
    (get_collection_stats (update_index (fun _ => true) (fun _ => [c7RawSplit])
        (fun _ => uidsFix) 1 [c9KeyItem] false
        (update_index (fun _ => true) (fun _ => [c7RawSplit])
          (fun _ => uidsFix) 0 [c9KeyItem] false []).1).1).1 = 2 :=
  ⟨rfl, rfl⟩

/-! Citation-key extraction, from `src/zotero/zotero_client.py`. -/

/-- Python `s.split(c)` for a one-character separator, on character lists. -/
def splitChar (sep : Char) : List Char → List (List Char)
  | [] => [[]]
  | c :: rest =>
    match splitChar sep rest with
    | [] => [[]]
    | cur :: parts => if c = sep then [] :: cur :: parts else (c :: cur) :: parts

/-- The characters of a list up to (excluding) the first occurrence of `sep`.
For a line of the form `sep ++ rest`, Python `line.split(sep)[1]` is exactly
`takeUntilSep sep rest`. -/
def takeUntilSep (sep : List Char) : List Char → List Char
  | [] => []
  | c :: rest => if sep.isPrefixOf (c :: rest) then [] else c :: takeUntilSep sep rest

/-- Python `s.strip()`: whitespace removed from both ends. -/
def pyStrip (l : List Char) : List Char :=
  ((l.dropWhile Char.isWhitespace).reverse.dropWhile Char.isWhitespace).reverse

/-- The literal prefix `_parse_citation_key` looks for (exactly one space
after the colon). -/
def ckPrefix : String := "Citation Key: "

/-- Embedding of `_parse_citation_key`: scan the newline-separated lines of
`extra`; on the first line starting with the literal `Citation Key: ` return
`line.split('Citation Key: ')[1].strip()`; otherwise the empty string. -/
def parse_citation_key (extra : String) : String :=
  match (splitChar (Char.ofNat 10) extra.data).find?
      (fun line => ckPrefix.data.isPrefixOf line) with
  | some line => ⟨pyStrip (takeUntilSep ckPrefix.data (line.drop ckPrefix.data.length))⟩
  | none => ""

/-- The citation-key entry of `_parse_item_metadata`:
`item_data.get('citationKey') or _parse_citation_key(item_data.get('extra', ''))`
— the dedicated field wins only when truthy (non-empty). -/
def citation_key_of (citationKey : Option String) (extra : String) : String :=
  match citationKey with
  | some s => if s = "" then parse_citation_key extra else s
  | none => parse_citation_key extra

/-- Match of one line against the claimed regex
`^(Citation Key|Citekey):\s*(.+)$` (second definition, following the
specification words, for comparison with the source embedding). -/
def specLineKey (line : List Char) : Option (List Char) :=
  if "Citation Key:".data.isPrefixOf line then
    let rest := (line.drop "Citation Key:".data.length).dropWhile Char.isWhitespace
    if rest.isEmpty then none else some rest
  else if "Citekey:".data.isPrefixOf line then
    let rest := (line.drop "Citekey:".data.length).dropWhile Char.isWhitespace
    if rest.isEmpty then none else some rest
  else none

/-- Citation key as the SPECIFICATION describes it: the dedicated field when
present; else the first line of `extra` matching the regex; else the
synthesized fallback (supplied pre-built by `spec_synth_key`). -/
def spec_citation_key (citationKey : Option String) (extra : String)
    (synth : String) : String :=
  match citationKey with
  | some s => s
  | none =>
    match (splitChar (Char.ofNat 10) extra.data).findSome? specLineKey with
    | some key => ⟨key⟩
    | none => synth

/-- The synthesized fallback the specification describes:
`<first_author_lowercased>_<first_title_word_lowercased>_<year_or_nodate>`. -/
def spec_synth_key (first_author first_title_word : String)
    (year : Option String) : String :=
  pyToLower first_author ++ "_" ++ pyToLower first_title_word ++ "_" ++ year.getD "nodate"

lemma splitChar_no_sep (sep : Char) (l : List Char) (h : ∀ c ∈ l, c ≠ sep) :
    splitChar sep l = [l] := by
  induction l with
  | nil => rfl
  | cons c rest ih =>
    unfold splitChar
    rw [ih (fun x hx => h x (List.mem_cons_of_mem _ hx))]
    show (if c = sep then [] :: rest :: ([] : List (List Char)) else [c :: rest])
      = [c :: rest]
    rw [if_neg (h c (List.mem_cons_self c rest))]

lemma takeUntilSep_of_not_contains (sep : List Char) (l : List Char)
    (h : subInChars sep l = false) :
    takeUntilSep sep l = l := by
  induction l with
  | nil => rfl
  | cons c rest ih =>
    unfold subInChars at h
    rw [Bool.or_eq_false_iff] at h
    unfold takeUntilSep
    rw [if_neg (by simp [h.1]), ih h.2]

/-- C6 (amended).  The citation key is the dedicated `citationKey` field when
present and non-empty; otherwise it comes from the first line of the free
text `extra` starting with the exact literal `Citation Key: ` (one space,
exact capitalization — `Citekey:` and space-free variants are NOT matched),
taking the text after the prefix up to any further occurrence of the prefix,
stripped; otherwise it is the EMPTY string — there is no synthesized
`<author>_<word>_<year>` fallback in the code. -/
theorem citation_key_spec (s e k : String) (hs : s ≠ "")
    (hnl : Char.ofNat 10 ∉ k.data)
    (hsub : subInChars ckPrefix.data k.data = false)
    (hmiss : ∀ line ∈ splitChar (Char.ofNat 10) e.data,
      ¬ ckPrefix.data.isPrefixOf line) :
    citation_key_of (some s) e = s ∧
    citation_key_of none e = parse_citation_key e ∧
    parse_citation_key e = "" ∧
    parse_citation_key (ckPrefix ++ k) = ⟨pyStrip k.data⟩ := by
  refine ⟨by simp [citation_key_of, hs], rfl, ?_, ?_⟩
  · unfold parse_citation_key
    rw [List.find?_eq_none.mpr hmiss]
  · unfold parse_citation_key
    have hdata : (ckPrefix ++ k).data = ckPrefix.data ++ k.data := String.data_append _ _
    have hone : splitChar (Char.ofNat 10) (ckPrefix ++ k).data
        = [ckPrefix.data ++ k.data] := by
      rw [hdata]
      refine splitChar_no_sep _ _ (fun c hc => ?_)
      rcases List.mem_append.mp hc with h | h
      · exact (by decide : ∀ x ∈ ckPrefix.data, x ≠ Char.ofNat 10) c h
      · exact fun he => hnl (he ▸ h)
    rw [hone]
    rw [List.find?_cons_of_pos _
      (List.isPrefixOf_iff_prefix.mpr (List.prefix_append _ _))]
    show ({ data := pyStrip (takeUntilSep ckPrefix.data
        (List.drop ckPrefix.data.length (ckPrefix.data ++ k.data))) } : String)
      = { data := pyStrip k.data }
    rw [List.drop_left, takeUntilSep_of_not_contains _ _ hsub]

/-- Witness for C6 at concrete inputs. -/
theorem citation_key_spec_witness :
    ("zotero2020" : String) ≠ "" ∧
    citation_key_of (some "zotero2020") "some extra text" = "zotero2020" ∧
    parse_citation_key "some extra text" = "" ∧
    parse_citation_key (ckPrefix ++ "smith2020") = ⟨pyStrip "smith2020".data⟩ := by
  have h := citation_key_spec "zotero2020" "some extra text" "smith2020"
    (by decide) (by decide) (by decide) (by decide)
  exact ⟨by decide, h.1, h.2.2.1, h.2.2.2⟩

/-- C6 counterexample.  For an item without a dedicated citation key whose
`extra` field reads `Citekey: smith2020`, the claimed regex (and the spec)
yield `smith2020`, but the source only matches the exact literal
`Citation Key: ` and has no synthesis fallback, so it returns the empty
string. -/
theorem citation_key_claim_counterexample :
    citation_key_of none "Citekey: smith2020" = "" ∧
    spec_citation_key none "Citekey: smith2020"
      (spec_synth_key "Smith" "Deep" (some "2020")) = "smith2020" ∧
    ("" : String) ≠ "smith2020" :=
  ⟨rfl, rfl, by decide⟩

end Scico
